import Mathlib

/-!
Verification of the resource-declaration schema and task-modification merge
engine of `pkg/apis/pipeline/v1alpha2/resource_types.go`.

The Go code is shallowly embedded: the in-place mutation of a `TaskSpec`
becomes explicit state passing, so `ApplyTaskModifier` returns the final
`TaskSpec` together with an optional error (mirroring the fact that the Go
function may mutate the spec and still return a non-nil error).
-/

namespace Pipeline

/-- `PipelineResourceType` represents the type of endpoint a pipeline
resource is (a Go string type). -/
abbrev PipelineResourceType := String

/-- `PipelineResourceTypeGit` indicates that this source is a GitHub repo. -/
def PipelineResourceTypeGit : PipelineResourceType := "git"

/-- `PipelineResourceTypeStorage` indicates that this source is a storage blob resource. -/
def PipelineResourceTypeStorage : PipelineResourceType := "storage"

/-- `PipelineResourceTypeImage` indicates that this source is a docker image. -/
def PipelineResourceTypeImage : PipelineResourceType := "image"

/-- `PipelineResourceTypeCluster` indicates that this source is a k8s cluster. -/
def PipelineResourceTypeCluster : PipelineResourceType := "cluster"

/-- `PipelineResourceTypePullRequest` indicates that this source is an SCM pull request. -/
def PipelineResourceTypePullRequest : PipelineResourceType := "pullRequest"

/-- `PipelineResourceTypeCloudEvent` indicates that this source is a cloud event URI. -/
def PipelineResourceTypeCloudEvent : PipelineResourceType := "cloudEvent"

/-- `AllowedOutputResources` is a Go map from resource type to bool whose
entries are `storage ↦ true` and `git ↦ true`; it is embedded as its lookup
function (a missing key in a Go `map[T]bool` reads as `false`). -/
def AllowedOutputResources (t : PipelineResourceType) : Bool :=
  t = PipelineResourceTypeStorage || t = PipelineResourceTypeGit

/-- `AllResourceTypes` can be used for validation to check if a provided
resource type is one of the known types. -/
def AllResourceTypes : List PipelineResourceType :=
  [PipelineResourceTypeGit, PipelineResourceTypeStorage, PipelineResourceTypeImage,
   PipelineResourceTypeCluster, PipelineResourceTypePullRequest, PipelineResourceTypeCloudEvent]

/-- Modelled from the spec: `IsValidType` is the membership test against the
fixed enumeration `AllResourceTypes` ("`IsValidType(t) -> bool` membership
test against the fixed enumeration"); the function itself is not among the
given sources, only the enumeration `AllResourceTypes` is. -/
def IsValidType (t : PipelineResourceType) : Bool :=
  AllResourceTypes.any (fun a => t = a)

/-- Modelled from the spec: `IsValidOutputType` is the membership test
against the `{storage, git}` subset ("`IsValidOutputType(t) -> bool`
membership test against the {storage, git} subset"); the function itself is
not among the given sources, only the subset `AllowedOutputResources` is. -/
def IsValidOutputType (t : PipelineResourceType) : Bool :=
  AllowedOutputResources t

/-- Modelled from the spec: a `Step` is "an ordered execution unit
identified by a name unique within the step list of a task"; the merge engine
only reads `name` and "never edits step bodies", so the rest of the payload
(container image, command, ...) is kept abstract as `body`. The concrete Go
type is declared elsewhere in the repository, outside the given sources. -/
structure Step where
  name : String
  body : String
  deriving DecidableEq, Repr

/-- Modelled from the spec: a `Volume` is "a named shared resource
descriptor (content payload opaque to this core beyond equality
comparison)"; the payload is kept abstract as `source`. (In Go this is
`k8s.io/api/core/v1.Volume`, compared with `cmp.Diff`, i.e. deep structural
equality.) -/
structure Volume where
  name : String
  source : String
  deriving DecidableEq, Repr

/-- Modelled from the spec: the fields of `TaskSpec` that the merge engine
touches, "an ordered sequence of Steps and an unordered set of Volumes
(keyed by name)". The concrete Go type is declared elsewhere in the
repository, outside the given sources. -/
structure TaskSpec where
  steps : List Step
  volumes : List Volume
  deriving DecidableEq, Repr

/-- `InternalTaskModifier` implements `TaskModifier` with three fixed lists.
A `TaskModifier` is extensionally nothing more than its three getters, so
this one concrete variant embeds every modifier the merge engine can see. -/
structure InternalTaskModifier where
  stepsToPrepend : List Step
  stepsToAppend : List Step
  volumes : List Volume
  deriving DecidableEq, Repr

/-- `GetStepsToPrepend` returns the steps to prepend to the task. -/
def GetStepsToPrepend (tm : InternalTaskModifier) : List Step :=
  tm.stepsToPrepend

/-- `GetStepsToAppend` returns the steps to append to the task. -/
def GetStepsToAppend (tm : InternalTaskModifier) : List Step :=
  tm.stepsToAppend

/-- `GetVolumes` returns the volumes to add to the task pod. -/
def GetVolumes (tm : InternalTaskModifier) : List Volume :=
  tm.volumes

/-- The two error kinds `ApplyTaskModifier` can produce: the "Step %s cannot
be added again" error of `checkStepNotAlreadyAdded`, and the "tried to add
volume %s already added but with different contents" error of the volume
loop; each carries the offending name. -/
inductive MergeError where
  | duplicateStepName (name : String)
  | conflictingVolume (name : String)
  deriving DecidableEq, Repr

/-- `checkStepNotAlreadyAdded` returns an error when a step of the same name
is already in `steps` (Go: iterate over `steps`, return
`fmt.Errorf("Step %s cannot be added again", step.Name)` on the first name
match). -/
def checkStepNotAlreadyAdded (s : Step) (steps : List Step) : Except MergeError Unit :=
  match steps with
  | [] => .ok ()
  | step :: rest =>
    if s.name = step.name then .error (.duplicateStepName step.name)
    else checkStepNotAlreadyAdded s rest

/-- The validation loop of `ApplyTaskModifier`: run
`checkStepNotAlreadyAdded` for each step of `toAdd` against `existing`,
propagating the first error (Go: `for _, step := range steps { if err := ...;
err != nil { return err } }`). -/
def checkSteps (toAdd existing : List Step) : Except MergeError Unit :=
  match toAdd with
  | [] => .ok ()
  | s :: rest =>
    match checkStepNotAlreadyAdded s existing with
    | .error e => .error e
    | .ok _ => checkSteps rest existing

/-- The inner loop of the volume merge in `ApplyTaskModifier`: scan all of
`vols` for entries named like `volume`; a name match with different contents
(`cmp.Diff` non-empty, i.e. structural inequality) is an error, a name match
with identical contents sets `alreadyAdded`; the scan continues to the end
of the list either way. Returns the final `alreadyAdded` flag. -/
def scanVolume (volume : Volume) (vols : List Volume) : Except MergeError Bool :=
  match vols with
  | [] => .ok false
  | v :: rest =>
    if volume.name = v.name then
      if volume = v then
        match scanVolume volume rest with
        | .error e => .error e
        | .ok _ => .ok true
      else .error (.conflictingVolume volume.name)
    else scanVolume volume rest

/-- The outer loop of the volume merge in `ApplyTaskModifier`: process each
volume of `toAdd` in order against the growing list `vols`; on a conflict
the loop stops, keeping the volumes appended so far (the Go function returns
with `ts.Volumes` already mutated). -/
def mergeVolumesRun (toAdd vols : List Volume) : List Volume × Option MergeError :=
  match toAdd with
  | [] => (vols, none)
  | volume :: rest =>
    match scanVolume volume vols with
    | .error e => (vols, some e)
    | .ok true => mergeVolumesRun rest vols
    | .ok false => mergeVolumesRun rest (vols ++ [volume])

/-- `ApplyTaskModifier` applies a modifier to the task by appending and
prepending steps and volumes. Go control flow, with the in-place mutation of
`ts` made explicit: validate the prepend group against `ts.Steps`, set
`ts.Steps = prepend ++ ts.Steps`; validate the append group against the
updated `ts.Steps`, set `ts.Steps = ts.Steps ++ append`; then merge volumes.
The first component of the result is the final state of `ts` (also when the
second component reports an error). -/
def ApplyTaskModifier (ts : TaskSpec) (tm : InternalTaskModifier) : TaskSpec × Option MergeError :=
  match checkSteps (GetStepsToPrepend tm) ts.steps with
  | .error e => (ts, some e)
  | .ok _ =>
    let ts1 : TaskSpec := { ts with steps := GetStepsToPrepend tm ++ ts.steps }
    match checkSteps (GetStepsToAppend tm) ts1.steps with
    | .error e => (ts1, some e)
    | .ok _ =>
      let ts2 : TaskSpec := { ts1 with steps := ts1.steps ++ GetStepsToAppend tm }
      let res := mergeVolumesRun (GetVolumes tm) ts2.volumes
      ({ ts2 with volumes := res.1 }, res.2)

/-! ### Helper lemmas about the step-validation loops -/

theorem checkStepNotAlreadyAdded_eq (s : Step) (steps : List Step) :
    checkStepNotAlreadyAdded s steps =
      if steps.any (fun st => s.name == st.name) then .error (.duplicateStepName s.name)
      else .ok () := by
  induction steps with
  | nil => rfl
  | cons st rest ih =>
    by_cases h : s.name = st.name
    · simp [checkStepNotAlreadyAdded, h]
    · simp [checkStepNotAlreadyAdded, h, ih]

theorem checkSteps_eq_ok (toAdd existing : List Step)
    (h : ∀ p ∈ toAdd, ∀ s ∈ existing, ¬ p.name = s.name) :
    checkSteps toAdd existing = .ok () := by
  induction toAdd with
  | nil => rfl
  | cons p rest ih =>
    have hp : checkStepNotAlreadyAdded p existing = .ok () := by
      rw [checkStepNotAlreadyAdded_eq]
      have : existing.any (fun st => p.name == st.name) = false := by
        simp only [List.any_eq_false, beq_iff_eq]
        exact fun s hs => h p (by simp) s hs
      simp [this]
    have hrest := ih (fun q hq s hs => h q (by simp [hq]) s hs)
    simp [checkSteps, hp, hrest]

theorem checkSteps_collision (toAdd existing : List Step) (p : Step)
    (hp : p ∈ toAdd) (hc : ∃ s ∈ existing, p.name = s.name) :
    ∃ n, checkSteps toAdd existing = .error (.duplicateStepName n) := by
  induction toAdd with
  | nil => cases hp
  | cons q rest ih =>
    by_cases hq : existing.any (fun st => q.name == st.name)
    · refine ⟨q.name, ?_⟩
      simp [checkSteps, checkStepNotAlreadyAdded_eq, hq]
    · have hpr : p ∈ rest := by
        rcases List.mem_cons.mp hp with h | h
        · subst h
          exfalso
          apply hq
          rcases hc with ⟨s, hs, hn⟩
          exact List.any_eq_true.mpr ⟨s, hs, by simp [hn]⟩
        · exact h
      rcases ih hpr with ⟨n, hn⟩
      refine ⟨n, ?_⟩
      simp [checkSteps, checkStepNotAlreadyAdded_eq, hq, hn]

theorem checkSteps_error_shape (toAdd existing : List Step) (e : MergeError)
    (h : checkSteps toAdd existing = .error e) :
    ∃ n, e = MergeError.duplicateStepName n := by
  induction toAdd with
  | nil => simp [checkSteps] at h
  | cons q rest ih =>
    rw [checkSteps, checkStepNotAlreadyAdded_eq] at h
    by_cases hq : existing.any (fun st => q.name == st.name)
    · simp [hq] at h
      exact ⟨q.name, h.symm⟩
    · simp [hq] at h
      exact ih h

/-! ### Helper lemmas about the volume-merge loops -/

theorem scanVolume_fresh (v : Volume) (vols : List Volume)
    (h : ∀ u ∈ vols, ¬ v.name = u.name) :
    scanVolume v vols = .ok false := by
  induction vols with
  | nil => rfl
  | cons u rest ih =>
    have hu : ¬ v.name = u.name := h u (by simp)
    simp [scanVolume, hu, ih (fun w hw => h w (by simp [hw]))]

theorem scanVolume_conflict (v : Volume) (vols : List Volume) (u : Volume)
    (hu : u ∈ vols) (hname : u.name = v.name) (hne : u ≠ v) :
    scanVolume v vols = .error (.conflictingVolume v.name) := by
  induction vols with
  | nil => cases hu
  | cons w rest ih =>
    by_cases hvw : v.name = w.name
    · by_cases hvw2 : v = w
      · have hur : u ∈ rest := by
          rcases List.mem_cons.mp hu with h | h
          · exact absurd (h.trans hvw2.symm) hne
          · exact h
        have hscan := ih hur
        simp only [scanVolume, if_pos hvw, if_pos hvw2, hscan]
      · simp only [scanVolume, if_pos hvw, if_neg hvw2]
    · have hur : u ∈ rest := by
        rcases List.mem_cons.mp hu with h | h
        · exact absurd (h ▸ hname).symm hvw
        · exact h
      simp only [scanVolume, if_neg hvw]
      exact ih hur

theorem scanVolume_clean (v : Volume) (vols : List Volume)
    (hclean : ∀ u ∈ vols, u.name = v.name → u = v) :
    scanVolume v vols = .ok (vols.any (fun u => u == v)) := by
  induction vols with
  | nil => rfl
  | cons w rest ih =>
    have hrest := ih (fun u hu => hclean u (by simp [hu]))
    by_cases hvw : v.name = w.name
    · have hw : w = v := hclean w (by simp) hvw.symm
      subst hw
      simp [scanVolume, hrest]
    · have hwv : (w == v) = false := by
        simp only [beq_eq_false_iff_ne, ne_eq]
        exact fun h => hvw (by rw [h])
      simp [scanVolume, hvw, hrest, hwv]

theorem scanVolume_ok_false (v : Volume) (vols : List Volume)
    (h : scanVolume v vols = .ok false) :
    ∀ u ∈ vols, ¬ v.name = u.name := by
  induction vols with
  | nil => intro u hu; cases hu
  | cons w rest ih =>
    intro u hu
    by_cases hvw : v.name = w.name
    · exfalso
      by_cases hvw2 : v = w
      · rw [scanVolume, if_pos hvw, if_pos hvw2] at h
        cases hscan : scanVolume v rest with
        | error e => rw [hscan] at h; cases h
        | ok b => rw [hscan] at h; cases h
      · rw [scanVolume, if_pos hvw, if_neg hvw2] at h
        cases h
    · rw [scanVolume, if_neg hvw] at h
      rcases List.mem_cons.mp hu with h1 | h1
      · exact fun hn => hvw (h1 ▸ hn)
      · exact ih h u h1

theorem scanVolume_error_shape (v : Volume) (vols : List Volume) (e : MergeError)
    (h : scanVolume v vols = .error e) :
    e = MergeError.conflictingVolume v.name := by
  induction vols with
  | nil => cases h
  | cons w rest ih =>
    by_cases hvw : v.name = w.name
    · by_cases hvw2 : v = w
      · rw [scanVolume, if_pos hvw, if_pos hvw2] at h
        cases hscan : scanVolume v rest with
        | error f =>
          rw [hscan] at h
          cases h
          exact ih hscan
        | ok b => rw [hscan] at h; cases h
      · rw [scanVolume, if_pos hvw, if_neg hvw2] at h
        cases h
        rfl
    · rw [scanVolume, if_neg hvw] at h
      exact ih h

theorem mergeVolumesRun_error_shape (toAdd vols : List Volume) (e : MergeError)
    (h : (mergeVolumesRun toAdd vols).2 = some e) :
    ∃ n, e = MergeError.conflictingVolume n := by
  induction toAdd generalizing vols with
  | nil => simp [mergeVolumesRun] at h
  | cons q rest ih =>
    rw [mergeVolumesRun] at h
    cases hscan : scanVolume q vols with
    | error f =>
      rw [hscan] at h
      simp at h
      exact ⟨q.name, h ▸ scanVolume_error_shape q vols f hscan⟩
    | ok b =>
      rw [hscan] at h
      cases b
      · exact ih (vols ++ [q]) h
      · exact ih vols h

theorem mergeVolumesRun_conflict (toAdd : List Volume) :
    ∀ (vols : List Volume) (v w : Volume), w ∈ vols → w.name = v.name → w ≠ v → v ∈ toAdd →
      (∃ n, (mergeVolumesRun toAdd vols).2 = some (MergeError.conflictingVolume n)) ∧
        (mergeVolumesRun toAdd vols).1.filter (fun u => decide (u.name = v.name)) =
          vols.filter (fun u => decide (u.name = v.name)) := by
  induction toAdd with
  | nil =>
    intro vols v w hw hname hne hv
    cases hv
  | cons q rest ih =>
    intro vols v w hw hname hne hv
    by_cases hqv : q = v
    · subst hqv
      have hscan := scanVolume_conflict q vols w hw hname hne
      refine ⟨⟨q.name, ?_⟩, ?_⟩ <;> simp [mergeVolumesRun, hscan]
    · have hvrest : v ∈ rest := by
        rcases List.mem_cons.mp hv with h | h
        · exact absurd h.symm hqv
        · exact h
      cases hscan : scanVolume q vols with
      | error e =>
        have hshape := scanVolume_error_shape q vols e hscan
        refine ⟨⟨q.name, ?_⟩, ?_⟩ <;> simp [mergeVolumesRun, hscan, hshape]
      | ok b =>
        cases b with
        | true =>
          have hrec := ih vols v w hw hname hne hvrest
          refine ⟨?_, ?_⟩ <;> simp only [mergeVolumesRun, hscan]
          · exact hrec.1
          · exact hrec.2
        | false =>
          have hfresh := scanVolume_ok_false q vols hscan
          have hqn : ¬ q.name = v.name := fun h => hfresh w hw (h.trans hname.symm)
          have hrec := ih (vols ++ [q]) v w (List.mem_append_left _ hw) hname hne hvrest
          have hfq : (vols ++ [q]).filter (fun u => decide (u.name = v.name)) =
              vols.filter (fun u => decide (u.name = v.name)) := by
            simp [List.filter_append, hqn]
          refine ⟨?_, ?_⟩ <;> simp only [mergeVolumesRun, hscan]
          · exact hrec.1
          · exact hrec.2.trans hfq

theorem eq_of_nodup_names (vols : List Volume) (u v : Volume)
    (huniq : (vols.map Volume.name).Nodup) (hu : u ∈ vols) (hv : v ∈ vols)
    (h : u.name = v.name) : u = v :=
  List.inj_on_of_nodup_map huniq hu hv h

theorem filter_eq_single_of_nodup_names (vols : List Volume) (w : Volume)
    (huniq : (vols.map Volume.name).Nodup) (hw : w ∈ vols) :
    vols.filter (fun u => decide (u.name = w.name)) = [w] := by
  induction vols with
  | nil => cases hw
  | cons x rest ih =>
    have huniq2 : (rest.map Volume.name).Nodup := (List.nodup_cons.mp (by simpa using huniq)).2
    have hxnotin : x.name ∉ rest.map Volume.name := (List.nodup_cons.mp (by simpa using huniq)).1
    rcases List.mem_cons.mp hw with h | h
    · subst h
      have hrest : rest.filter (fun u => decide (u.name = w.name)) = [] := by
        refine List.filter_eq_nil_iff.mpr ?_
        intro u hu
        simp only [decide_eq_true_eq]
        exact fun hn => hxnotin (hn ▸ List.mem_map_of_mem Volume.name hu)
      simp [List.filter_cons, hrest]
    · have hxw : ¬ x.name = w.name := by
        intro hn
        exact hxnotin (hn ▸ List.mem_map_of_mem Volume.name h)
      simp [List.filter_cons, hxw, ih huniq2 h]

theorem applyTaskModifier_run (ts : TaskSpec) (tm : InternalTaskModifier)
    (hok1 : checkSteps tm.stepsToPrepend ts.steps = .ok ())
    (hok2 : checkSteps tm.stepsToAppend (tm.stepsToPrepend ++ ts.steps) = .ok ()) :
    ApplyTaskModifier ts tm =
      ({ steps := (tm.stepsToPrepend ++ ts.steps) ++ tm.stepsToAppend,
         volumes := (mergeVolumesRun tm.volumes ts.volumes).1 },
       (mergeVolumesRun tm.volumes ts.volumes).2) := by
  simp only [ApplyTaskModifier, GetStepsToPrepend, GetStepsToAppend, GetVolumes, hok1, hok2]

/-! ### The claims -/

/-- C1 (amended): for every `TaskSpec` and modifier whose prepend-step names
and append-step names are all disjoint from the existing step names (and
from each other), the resulting step list is
`prependSteps ++ originalSteps ++ appendSteps` — its length is
`len(original) + len(prepend) + len(append)`, with relative order within
each group preserved and the prepend group contiguous before all existing
steps — and, whenever the modifier additionally contributes no volumes, the
whole call succeeds (returns no error). -/
theorem applyTaskModifier_disjoint_steps (ts : TaskSpec) (tm : InternalTaskModifier)
    (hpre : ∀ p ∈ tm.stepsToPrepend, ∀ s ∈ ts.steps, ¬ p.name = s.name)
    (happ : ∀ p ∈ tm.stepsToAppend, ∀ s ∈ tm.stepsToPrepend ++ ts.steps, ¬ p.name = s.name) :
    (ApplyTaskModifier ts tm).1.steps = tm.stepsToPrepend ++ ts.steps ++ tm.stepsToAppend ∧
      (ApplyTaskModifier ts tm).1.steps.length =
        ts.steps.length + tm.stepsToPrepend.length + tm.stepsToAppend.length ∧
      (tm.volumes = [] →
        ApplyTaskModifier ts tm =
          ({ ts with steps := tm.stepsToPrepend ++ ts.steps ++ tm.stepsToAppend }, none)) := by
  have hok1 := checkSteps_eq_ok _ _ hpre
  have hok2 := checkSteps_eq_ok _ _ happ
  have hrun := applyTaskModifier_run ts tm hok1 hok2
  refine ⟨?_, ?_, ?_⟩
  · rw [hrun, List.append_assoc]
  · rw [hrun]
    simp only [List.length_append]
    omega
  · intro hv
    rw [hrun]
    simp [hv, mergeVolumesRun, List.append_assoc]

/-- C1, counterexample to the claim as stated: with `spec.Volumes =
[{creds, X}]`, a modifier with empty prepend and append groups (so every
step-name disjointness requirement holds trivially) and a conflicting
volume `{creds, Y}` makes `ApplyTaskModifier` return an error, so the
unconditional "ApplyTaskModifier succeeds" of the claim is false. -/
theorem applyTaskModifier_disjoint_steps_can_fail :
    ApplyTaskModifier ⟨[], [⟨"creds", "X"⟩]⟩ ⟨[], [], [⟨"creds", "Y"⟩]⟩ =
      (⟨[], [⟨"creds", "X"⟩]⟩, some (.conflictingVolume "creds")) := by
  decide

/-- C1, witness for the amended theorem at a concrete input: prepending
`p` and appending `q` to a spec with one step `a`. -/
theorem applyTaskModifier_disjoint_steps_witness :
    (ApplyTaskModifier ⟨[⟨"a", "A"⟩], []⟩ ⟨[⟨"p", "P"⟩], [⟨"q", "Q"⟩], []⟩).1.steps =
        [⟨"p", "P"⟩, ⟨"a", "A"⟩, ⟨"q", "Q"⟩] ∧
      (ApplyTaskModifier ⟨[⟨"a", "A"⟩], []⟩ ⟨[⟨"p", "P"⟩], [⟨"q", "Q"⟩], []⟩).1.steps.length = 3 ∧
      (([] : List Volume) = [] →
        ApplyTaskModifier ⟨[⟨"a", "A"⟩], []⟩ ⟨[⟨"p", "P"⟩], [⟨"q", "Q"⟩], []⟩ =
          (⟨[⟨"p", "P"⟩, ⟨"a", "A"⟩, ⟨"q", "Q"⟩], []⟩, none)) :=
  applyTaskModifier_disjoint_steps _ _ (by decide) (by decide)

/-- C2: `ApplyTaskModifier` is not transactional — if the prepend group
validates (and is therefore applied) but append validation fails with `e`,
the call returns `e` while the prepend mutation remains in the spec. -/
theorem applyTaskModifier_no_rollback (ts : TaskSpec) (tm : InternalTaskModifier)
    (e : MergeError)
    (hpre : checkSteps tm.stepsToPrepend ts.steps = .ok ())
    (happ : checkSteps tm.stepsToAppend (tm.stepsToPrepend ++ ts.steps) = .error e) :
    ApplyTaskModifier ts tm = ({ ts with steps := tm.stepsToPrepend ++ ts.steps }, some e) := by
  simp only [ApplyTaskModifier, GetStepsToPrepend, GetStepsToAppend, hpre, happ]

/-- C2, witness: the concrete scenario of the claim — `spec.Steps = [A, B]`,
prepend `[X]`, append `[B]` gives the duplicate-step-name error for `b` and
leaves `spec.Steps = [X, A, B]`. -/
theorem applyTaskModifier_no_rollback_witness :
    ApplyTaskModifier ⟨[⟨"a", "A"⟩, ⟨"b", "B"⟩], []⟩ ⟨[⟨"x", "X"⟩], [⟨"b", "B"⟩], []⟩ =
      (⟨[⟨"x", "X"⟩, ⟨"a", "A"⟩, ⟨"b", "B"⟩], []⟩, some (.duplicateStepName "b")) :=
  applyTaskModifier_no_rollback _ _ _ rfl rfl

/-- C5: if some step of the prepend group has the name of a step already in
`spec.Steps`, `ApplyTaskModifier` returns a duplicate-step-name error and
the spec is completely unchanged — no prepend step, no append step and no
volume has been merged. -/
theorem applyTaskModifier_duplicate_prepend (ts : TaskSpec) (tm : InternalTaskModifier)
    (p : Step) (hp : p ∈ tm.stepsToPrepend) (hcol : ∃ s ∈ ts.steps, p.name = s.name) :
    ∃ n, ApplyTaskModifier ts tm = (ts, some (.duplicateStepName n)) := by
  rcases checkSteps_collision tm.stepsToPrepend ts.steps p hp hcol with ⟨n, hn⟩
  exact ⟨n, by simp [ApplyTaskModifier, GetStepsToPrepend, hn]⟩

/-- C5, witness: a prepend step reusing the name `a` aborts the call with
the spec unchanged, although the modifier also carries an append step and a
volume. -/
theorem applyTaskModifier_duplicate_prepend_witness :
    ∃ n, ApplyTaskModifier ⟨[⟨"a", "A"⟩], []⟩ ⟨[⟨"a", "A2"⟩], [⟨"z", "Z"⟩], [⟨"v", "V"⟩]⟩ =
      (⟨[⟨"a", "A"⟩], []⟩, some (.duplicateStepName n)) :=
  applyTaskModifier_duplicate_prepend _ _ ⟨"a", "A2"⟩ (by decide) (by decide)

/-- C6: append-step validation runs against the already-prepended list — an
append step named like a prepend step of the same call makes
`ApplyTaskModifier` return a duplicate-step-name error, and no append step
is inserted (the final step list is either the original one or the original
one with only the prepend group in front). -/
theorem applyTaskModifier_append_checked_after_prepend (ts : TaskSpec)
    (tm : InternalTaskModifier) (a p : Step)
    (ha : a ∈ tm.stepsToAppend) (hp : p ∈ tm.stepsToPrepend) (hname : a.name = p.name) :
    ∃ n, (ApplyTaskModifier ts tm).2 = some (.duplicateStepName n) ∧
      ((ApplyTaskModifier ts tm).1.steps = ts.steps ∨
        (ApplyTaskModifier ts tm).1.steps = tm.stepsToPrepend ++ ts.steps) := by
  cases hpre : checkSteps tm.stepsToPrepend ts.steps with
  | error e =>
    rcases checkSteps_error_shape _ _ e hpre with ⟨n, hn⟩
    refine ⟨n, ?_, Or.inl ?_⟩ <;> simp [ApplyTaskModifier, GetStepsToPrepend, hpre, hn]
  | ok u =>
    cases u
    have hcol : ∃ s ∈ tm.stepsToPrepend ++ ts.steps, a.name = s.name :=
      ⟨p, List.mem_append_left _ hp, hname⟩
    rcases checkSteps_collision _ _ a ha hcol with ⟨n, hn⟩
    refine ⟨n, ?_, Or.inr ?_⟩ <;>
      simp [ApplyTaskModifier, GetStepsToPrepend, GetStepsToAppend, hpre, hn]

/-- C6, witness: the name `x` does not occur in the original (empty) step
list, yet appending a second step named `x` after prepending one fails. -/
theorem applyTaskModifier_append_checked_after_prepend_witness :
    ∃ n, (ApplyTaskModifier ⟨[], []⟩ ⟨[⟨"x", "1"⟩], [⟨"x", "2"⟩], []⟩).2 =
        some (.duplicateStepName n) ∧
      ((ApplyTaskModifier ⟨[], []⟩ ⟨[⟨"x", "1"⟩], [⟨"x", "2"⟩], []⟩).1.steps = [] ∨
        (ApplyTaskModifier ⟨[], []⟩ ⟨[⟨"x", "1"⟩], [⟨"x", "2"⟩], []⟩).1.steps = [⟨"x", "1"⟩]) :=
  applyTaskModifier_append_checked_after_prepend _ _ ⟨"x", "2"⟩ ⟨"x", "1"⟩ (by decide)
    (by decide) rfl

/-- C3: with volume names unique in the spec (the data-model invariant) and
the step phases passing, a modifier volume `v` whose name matches an
existing volume `w` of different content makes `ApplyTaskModifier` return a
conflicting-volume error; the spec retains exactly one volume of that name —
the original `w` — and the conflicting `v` is not added. -/
theorem applyTaskModifier_conflicting_volume (ts : TaskSpec) (tm : InternalTaskModifier)
    (v w : Volume)
    (hok1 : checkSteps tm.stepsToPrepend ts.steps = .ok ())
    (hok2 : checkSteps tm.stepsToAppend (tm.stepsToPrepend ++ ts.steps) = .ok ())
    (huniq : (ts.volumes.map Volume.name).Nodup)
    (hv : v ∈ tm.volumes) (hw : w ∈ ts.volumes) (hname : w.name = v.name) (hne : w ≠ v) :
    (∃ n, (ApplyTaskModifier ts tm).2 = some (.conflictingVolume n)) ∧
      (ApplyTaskModifier ts tm).1.volumes.filter (fun u => decide (u.name = v.name)) = [w] ∧
      v ∉ (ApplyTaskModifier ts tm).1.volumes := by
  have hrun := applyTaskModifier_run ts tm hok1 hok2
  have hmc := mergeVolumesRun_conflict tm.volumes ts.volumes v w hw hname hne hv
  have hfw : ts.volumes.filter (fun u => decide (u.name = v.name)) = [w] := by
    rw [← hname]
    exact filter_eq_single_of_nodup_names ts.volumes w huniq hw
  refine ⟨?_, ?_, ?_⟩
  · rw [hrun]
    exact hmc.1
  · rw [hrun]
    exact hmc.2.trans hfw
  · rw [hrun]
    intro hmem
    have hvf : v ∈ (mergeVolumesRun tm.volumes ts.volumes).1.filter
        (fun u => decide (u.name = v.name)) :=
      List.mem_filter.mpr ⟨hmem, by simp⟩
    rw [hmc.2, hfw] at hvf
    exact hne (List.mem_singleton.mp hvf).symm

/-- C3, witness: the two-call example of the claim — adding `{creds, X}` to an
empty volume list succeeds; then adding `{creds, Y}` fails with the
conflicting-volume error for `creds` and leaves the volume list unchanged. -/
theorem applyTaskModifier_conflicting_volume_witness :
    (ApplyTaskModifier ⟨[], []⟩ ⟨[], [], [⟨"creds", "X"⟩]⟩ =
        (⟨[], [⟨"creds", "X"⟩]⟩, none)) ∧
      (ApplyTaskModifier ⟨[], [⟨"creds", "X"⟩]⟩ ⟨[], [], [⟨"creds", "Y"⟩]⟩ =
        (⟨[], [⟨"creds", "X"⟩]⟩, some (.conflictingVolume "creds"))) ∧
      (∃ n, (ApplyTaskModifier ⟨[], [⟨"creds", "X"⟩]⟩ ⟨[], [], [⟨"creds", "Y"⟩]⟩).2 =
          some (.conflictingVolume n)) ∧
      (ApplyTaskModifier ⟨[], [⟨"creds", "X"⟩]⟩ ⟨[], [], [⟨"creds", "Y"⟩]⟩).1.volumes.filter
          (fun u => decide (u.name = "creds")) = [⟨"creds", "X"⟩] ∧
      (⟨"creds", "Y"⟩ : Volume) ∉
        (ApplyTaskModifier ⟨[], [⟨"creds", "X"⟩]⟩ ⟨[], [], [⟨"creds", "Y"⟩]⟩).1.volumes := by
  have h := applyTaskModifier_conflicting_volume ⟨[], [⟨"creds", "X"⟩]⟩
    ⟨[], [], [⟨"creds", "Y"⟩]⟩ ⟨"creds", "Y"⟩ ⟨"creds", "X"⟩ rfl rfl (by decide) (by decide)
    (by decide) rfl (by decide)
  exact ⟨by decide, by decide, h.1, h.2.1, h.2.2⟩

/-- C4: volume merging is idempotent — with volume names unique in the spec
(the data-model invariant), applying a modifier that contributes a volume
already present with identical name and content succeeds and leaves the
spec (in particular `spec.Volumes` and its length) unchanged. -/
theorem applyTaskModifier_volume_idempotent (ts : TaskSpec) (v : Volume)
    (huniq : (ts.volumes.map Volume.name).Nodup) (hv : v ∈ ts.volumes) :
    ApplyTaskModifier ts ⟨[], [], [v]⟩ = (ts, none) := by
  have hok1 : checkSteps ([] : List Step) ts.steps = .ok () := rfl
  have hok2 : checkSteps ([] : List Step) ([] ++ ts.steps) = .ok () := rfl
  have hrun := applyTaskModifier_run ts ⟨[], [], [v]⟩ hok1 hok2
  have hclean : ∀ u ∈ ts.volumes, u.name = v.name → u = v :=
    fun u hu hn => eq_of_nodup_names ts.volumes u v huniq hu hv hn
  have hscan := scanVolume_clean v ts.volumes hclean
  have hany : ts.volumes.any (fun u => u == v) = true :=
    List.any_eq_true.mpr ⟨v, hv, by simp⟩
  rw [hany] at hscan
  rw [hrun]
  simp [mergeVolumesRun, hscan]

/-- C4, witness: re-adding the identical `{creds, X}` volume is a no-op. -/
theorem applyTaskModifier_volume_idempotent_witness :
    ApplyTaskModifier ⟨[], [⟨"creds", "X"⟩]⟩ ⟨[], [], [⟨"creds", "X"⟩]⟩ =
      (⟨[], [⟨"creds", "X"⟩]⟩, none) :=
  applyTaskModifier_volume_idempotent _ _ (by decide) (by decide)

/-- C7: the set of types legal as task outputs is exactly
`{storage, git}` and the full closed enumeration is exactly
`{git, storage, image, cluster, pullRequest, cloudEvent}`; in particular
`IsValidOutputType "image" = false`, `IsValidOutputType "git" = true`, and
`IsValidType "bogus" = false`. -/
theorem resource_type_registry_exact :
    IsValidOutputType PipelineResourceTypeGit = true ∧
      IsValidOutputType PipelineResourceTypeImage = false ∧
      IsValidType "bogus" = false ∧
      (∀ t : PipelineResourceType,
        IsValidOutputType t = true ↔ t = "storage" ∨ t = "git") ∧
      (∀ t : PipelineResourceType,
        IsValidType t = true ↔
          t = "git" ∨ t = "storage" ∨ t = "image" ∨ t = "cluster" ∨
            t = "pullRequest" ∨ t = "cloudEvent") := by
  refine ⟨rfl, rfl, rfl, ?_, ?_⟩
  · intro t
    simp [IsValidOutputType, AllowedOutputResources, PipelineResourceTypeStorage,
      PipelineResourceTypeGit]
  · intro t
    simp [IsValidType, AllResourceTypes, PipelineResourceTypeGit, PipelineResourceTypeStorage,
      PipelineResourceTypeImage, PipelineResourceTypeCluster, PipelineResourceTypePullRequest,
      PipelineResourceTypeCloudEvent]

/-- C7, witness: instances of the exact-membership characterisations. -/
theorem resource_type_registry_exact_witness :
    IsValidOutputType "storage" = true ∧ IsValidType "cloudEvent" = true :=
  ⟨(resource_type_registry_exact.2.2.2.1 "storage").mpr (Or.inl rfl),
    (resource_type_registry_exact.2.2.2.2 "cloudEvent").mpr
      (Or.inr (Or.inr (Or.inr (Or.inr (Or.inr rfl)))))⟩

/-- C8: when the prepend-group names are disjoint from the current step
names, the prepend validation never errors, the prepend block is always
inserted contiguously in front of the original steps, and any error the
call returns originates in append validation (a duplicate-step-name error
produced by checking the append group against the already-prepended list)
or in the volume merge (a conflicting-volume error). -/
theorem applyTaskModifier_prepend_safe (ts : TaskSpec) (tm : InternalTaskModifier)
    (hpre : ∀ p ∈ tm.stepsToPrepend, ∀ s ∈ ts.steps, ¬ p.name = s.name) :
    checkSteps tm.stepsToPrepend ts.steps = .ok () ∧
      (∃ t, (ApplyTaskModifier ts tm).1.steps = tm.stepsToPrepend ++ ts.steps ++ t) ∧
      (∀ e, (ApplyTaskModifier ts tm).2 = some e →
        checkSteps tm.stepsToAppend (tm.stepsToPrepend ++ ts.steps) = .error e ∨
          ∃ n, e = .conflictingVolume n) := by
  have hok1 := checkSteps_eq_ok _ _ hpre
  refine ⟨hok1, ?_⟩
  cases happ : checkSteps tm.stepsToAppend (tm.stepsToPrepend ++ ts.steps) with
  | error e0 =>
    have heq : ApplyTaskModifier ts tm =
        ({ ts with steps := tm.stepsToPrepend ++ ts.steps }, some e0) := by
      simp only [ApplyTaskModifier, GetStepsToPrepend, GetStepsToAppend, hok1, happ]
    constructor
    · refine ⟨[], ?_⟩
      rw [heq]
      simp
    · intro e he
      rw [heq] at he
      simp only [Option.some.injEq] at he
      subst he
      exact Or.inl rfl
  | ok u =>
    cases u
    have hrun := applyTaskModifier_run ts tm hok1 happ
    constructor
    · refine ⟨tm.stepsToAppend, ?_⟩
      rw [hrun]
    · intro e he
      rw [hrun] at he
      exact Or.inr (mergeVolumesRun_error_shape _ _ e he)

/-- C8, witness: prepend name `p` is fresh, so the prepend succeeds even
though the append step collides with the existing step `a`. -/
theorem applyTaskModifier_prepend_safe_witness :
    checkSteps [⟨"p", "P"⟩] [⟨"a", "A"⟩] = .ok () ∧
      (∃ t, (ApplyTaskModifier ⟨[⟨"a", "A"⟩], []⟩ ⟨[⟨"p", "P"⟩], [⟨"a", "A2"⟩], []⟩).1.steps =
        [⟨"p", "P"⟩] ++ [⟨"a", "A"⟩] ++ t) ∧
      (∀ e, (ApplyTaskModifier ⟨[⟨"a", "A"⟩], []⟩ ⟨[⟨"p", "P"⟩], [⟨"a", "A2"⟩], []⟩).2 = some e →
        checkSteps [⟨"a", "A2"⟩] ([⟨"p", "P"⟩] ++ [⟨"a", "A"⟩]) = .error e ∨
          ∃ n, e = .conflictingVolume n) :=
  applyTaskModifier_prepend_safe ⟨[⟨"a", "A"⟩], []⟩ ⟨[⟨"p", "P"⟩], [⟨"a", "A2"⟩], []⟩
    (by decide)

/-- C9 (amended): each incoming step is validated only against the step
list already in the spec, never against its siblings in the same group —
so, provided every prepend name is absent from the current list, every
append name absent from the prepended list, and the volume merge raises no
conflict (e.g. no volumes are contributed), the call succeeds and inserts
all contributed steps even when a group repeats a name internally; any
error such a call can return is a conflicting-volume error, never a
duplicate-step-name one. -/
theorem applyTaskModifier_no_sibling_check (ts : TaskSpec) (tm : InternalTaskModifier)
    (hpre : ∀ p ∈ tm.stepsToPrepend, ∀ s ∈ ts.steps, ¬ p.name = s.name)
    (happ : ∀ p ∈ tm.stepsToAppend, ∀ s ∈ tm.stepsToPrepend ++ ts.steps, ¬ p.name = s.name) :
    (ApplyTaskModifier ts tm).1.steps = tm.stepsToPrepend ++ ts.steps ++ tm.stepsToAppend ∧
      (∀ e, (ApplyTaskModifier ts tm).2 = some e → ∃ n, e = .conflictingVolume n) ∧
      (tm.volumes = [] → (ApplyTaskModifier ts tm).2 = none) := by
  have hok1 := checkSteps_eq_ok _ _ hpre
  have hok2 := checkSteps_eq_ok _ _ happ
  have hrun := applyTaskModifier_run ts tm hok1 hok2
  refine ⟨?_, ?_, ?_⟩
  · rw [hrun, List.append_assoc]
  · intro e he
    rw [hrun] at he
    exact mergeVolumesRun_error_shape _ _ e he
  · intro hv
    rw [hrun]
    simp [hv, mergeVolumesRun]

/-- C9, counterexample to the claim as stated: both scenarios satisfy the
hypotheses of the claim (the prepend group repeats a name that is absent from
`spec.Steps`) yet `ApplyTaskModifier` does not succeed — first because a
contributed volume conflicts, second because a third prepend step collides
with an existing step (so not even the two same-named steps are
inserted). -/
theorem applyTaskModifier_no_sibling_check_can_fail :
    ApplyTaskModifier ⟨[], [⟨"creds", "X"⟩]⟩
        ⟨[⟨"x", "1"⟩, ⟨"x", "2"⟩], [], [⟨"creds", "Y"⟩]⟩ =
      (⟨[⟨"x", "1"⟩, ⟨"x", "2"⟩], [⟨"creds", "X"⟩]⟩, some (.conflictingVolume "creds")) ∧
      ApplyTaskModifier ⟨[⟨"a", "A"⟩], []⟩
          ⟨[⟨"x", "1"⟩, ⟨"x", "2"⟩, ⟨"a", "A2"⟩], [], []⟩ =
        (⟨[⟨"a", "A"⟩], []⟩, some (.duplicateStepName "a")) := by
  exact ⟨by decide, by decide⟩

/-- C9, witness: duplicate names inside both groups — `x` twice in the
prepend group and `y` twice in the append group — are all inserted without
any error; step-name uniqueness across the task is violated in the
result. -/
theorem applyTaskModifier_no_sibling_check_witness :
    ((ApplyTaskModifier ⟨[⟨"a", "A"⟩], []⟩
          ⟨[⟨"x", "1"⟩, ⟨"x", "2"⟩], [⟨"y", "1"⟩, ⟨"y", "2"⟩], []⟩).1.steps =
        [⟨"x", "1"⟩, ⟨"x", "2"⟩] ++ [⟨"a", "A"⟩] ++ [⟨"y", "1"⟩, ⟨"y", "2"⟩] ∧
      (∀ e, (ApplyTaskModifier ⟨[⟨"a", "A"⟩], []⟩
          ⟨[⟨"x", "1"⟩, ⟨"x", "2"⟩], [⟨"y", "1"⟩, ⟨"y", "2"⟩], []⟩).2 = some e →
        ∃ n, e = .conflictingVolume n) ∧
      (([] : List Volume) = [] → (ApplyTaskModifier ⟨[⟨"a", "A"⟩], []⟩
          ⟨[⟨"x", "1"⟩, ⟨"x", "2"⟩], [⟨"y", "1"⟩, ⟨"y", "2"⟩], []⟩).2 = none)) ∧
      (ApplyTaskModifier ⟨[⟨"a", "A"⟩], []⟩
          ⟨[⟨"x", "1"⟩, ⟨"x", "2"⟩], [⟨"y", "1"⟩, ⟨"y", "2"⟩], []⟩).1.steps.map Step.name =
        ["x", "x", "a", "y", "y"] :=
  ⟨applyTaskModifier_no_sibling_check _ _ (by decide) (by decide), by decide⟩

/-- C10: the volume merge is non-atomic within a call — with the step
phases passing, volumes `[v1, v2]` where `v1` is fresh and `v2` conflicts
with an existing volume `w` give a conflicting-volume error naming `v2`,
yet `v1` remains appended to `spec.Volumes`. -/
theorem applyTaskModifier_volume_partial (ts : TaskSpec) (tm : InternalTaskModifier)
    (v1 v2 w : Volume)
    (hok1 : checkSteps tm.stepsToPrepend ts.steps = .ok ())
    (hok2 : checkSteps tm.stepsToAppend (tm.stepsToPrepend ++ ts.steps) = .ok ())
    (hvols : tm.volumes = [v1, v2])
    (hfresh : ∀ u ∈ ts.volumes, ¬ v1.name = u.name)
    (hw : w ∈ ts.volumes) (hname : w.name = v2.name) (hne : w ≠ v2) :
    (ApplyTaskModifier ts tm).1.volumes = ts.volumes ++ [v1] ∧
      (ApplyTaskModifier ts tm).2 = some (.conflictingVolume v2.name) := by
  have hrun := applyTaskModifier_run ts tm hok1 hok2
  have hscan1 : scanVolume v1 ts.volumes = .ok false := scanVolume_fresh v1 ts.volumes hfresh
  have hscan2 : scanVolume v2 (ts.volumes ++ [v1]) = .error (.conflictingVolume v2.name) :=
    scanVolume_conflict v2 (ts.volumes ++ [v1]) w (List.mem_append_left _ hw) hname hne
  have hmerge : mergeVolumesRun tm.volumes ts.volumes =
      (ts.volumes ++ [v1], some (.conflictingVolume v2.name)) := by
    rw [hvols]
    simp [mergeVolumesRun, hscan1, hscan2]
  constructor
  · rw [hrun, hmerge]
  · rw [hrun, hmerge]

/-- C10, witness: `{log, L}` is fresh and stays merged although the
subsequent `{creds, Y}` conflicts with the existing `{creds, X}`. -/
theorem applyTaskModifier_volume_partial_witness :
    (ApplyTaskModifier ⟨[], [⟨"creds", "X"⟩]⟩
        ⟨[], [], [⟨"log", "L"⟩, ⟨"creds", "Y"⟩]⟩).1.volumes =
      [⟨"creds", "X"⟩, ⟨"log", "L"⟩] ∧
      (ApplyTaskModifier ⟨[], [⟨"creds", "X"⟩]⟩
          ⟨[], [], [⟨"log", "L"⟩, ⟨"creds", "Y"⟩]⟩).2 =
        some (.conflictingVolume "creds") :=
  applyTaskModifier_volume_partial _ _ ⟨"log", "L"⟩ ⟨"creds", "Y"⟩ ⟨"creds", "X"⟩ rfl rfl rfl
    (by decide) (by decide) rfl (by decide)

end Pipeline
